import Mathlib

/-!
Verification of the G19 user-space USB driver (`g19.py`, repository `koehlma/gnited`).

The Lean definitions below are a shallow embedding of the Python source:

* `convert_color` (g19.py lines 82-86): 5:6:5 packing of an 8-bit RGB triple.
  Python computes `int(red * 31 / 255)` with float division followed by
  truncation toward zero.  For `0 ≤ red ≤ 255` the exact quotient `red*31/255`
  is either an integer (only for 0 and 255) or lies at distance at least
  `1/255` from every integer, far above the rounding error of a 64-bit float
  on values below `2¹³`, so the truncated float equals Nat floor division.
  The same argument applies to the green channel with factor 63.
* `FRAME_PREAMBLE` (lines 32-35), `G19.show`'s encoding loop (lines 159-169),
  the key-diff loops of `G19._run` (lines 176-202), the cached-state command
  methods (lines 126-157, 205-214) and `Service.show`'s length assertion
  (lines 250-253).

Machine integers are modelled as `Nat` (all Python values involved are
non-negative except the brightness argument, which is modelled as `Int` so
that out-of-range negative inputs are expressible).  Fallible operations
return `Option` or are paired with `Except`.
-/

namespace Gnited

/-- Embeds `convert_color` (g19.py lines 82-86).  `int(red * (2**5-1) / 255)`
truncates the float quotient; on the domain `[0,255]` this coincides with
Nat division (see the file comment), so the embedding uses `/` on `Nat`. -/
def convert_color (red green blue : Nat) : Nat :=
  let red_bits := red * (2 ^ 5 - 1) / 255
  let green_bits := green * (2 ^ 6 - 1) / 255
  let blue_bits := blue * (2 ^ 5 - 1) / 255
  (red_bits <<< 11) ||| (green_bits <<< 5) ||| blue_bits

/-- Merging a shifted field with a small low field is addition. -/
theorem shiftLeft_or_small (hi lo k : Nat) (h : lo < 2 ^ k) :
    hi <<< k ||| lo = hi * 2 ^ k + lo := by
  rw [Nat.shiftLeft_eq, Nat.mul_comm hi (2 ^ k), ← Nat.mul_add_lt_is_or h hi,
    Nat.mul_comm (2 ^ k) hi]

theorem scaled_le (x m c : Nat) (hx : x ≤ c) : x * m / c ≤ m := by
  have h1 : x * m ≤ c * m := Nat.mul_le_mul_right m hx
  have h2 : x * m / c ≤ c * m / c := Nat.div_le_div_right h1
  rcases Nat.eq_zero_or_pos c with hc | hc
  · subst hc; simp
  · rwa [Nat.mul_div_cancel_left m hc] at h2

/-- C1: for channels in `[0,255]`, `convert_color` returns the 16-bit word
packing `⌊r*31/255⌋` into bits 11-15, `⌊g*63/255⌋` into bits 5-10 and
`⌊b*31/255⌋` into bits 0-4 (multiply-then-integer-divide truncation), the
result is below `2¹⁶`, and the two endpoints are `0` and `0xFFFF`. -/
theorem convert_color_packed_word (r g b : Nat)
    (hr : r ≤ 255) (hg : g ≤ 255) (hb : b ≤ 255) :
    convert_color r g b =
      (r * 31 / 255) * 2 ^ 11 + (g * 63 / 255) * 2 ^ 5 + (b * 31 / 255) ∧
    convert_color r g b < 2 ^ 16 ∧
    convert_color 0 0 0 = 0 ∧ convert_color 255 255 255 = 0xffff := by
  have hrb : r * 31 / 255 ≤ 31 := scaled_le r 31 255 hr
  have hgb : g * 63 / 255 ≤ 63 := scaled_le g 63 255 hg
  have hbb : b * 31 / 255 ≤ 31 := scaled_le b 31 255 hb
  have key : convert_color r g b =
      (r * 31 / 255) * 2 ^ 11 + (g * 63 / 255) * 2 ^ 5 + (b * 31 / 255) := by
    show (r * (2 ^ 5 - 1) / 255) <<< 11 ||| (g * (2 ^ 6 - 1) / 255) <<< 5 |||
        (b * (2 ^ 5 - 1) / 255) = _
    norm_num
    rw [Nat.or_assoc,
      shiftLeft_or_small (g * 63 / 255) (b * 31 / 255) 5 (by omega),
      shiftLeft_or_small (r * 31 / 255) (g * 63 / 255 * 2 ^ 5 + b * 31 / 255) 11
        (by norm_num; omega)]
    ring
  refine ⟨key, ?_, by decide, by decide⟩
  rw [key]
  have e1 : (2 : Nat) ^ 11 = 2048 := by norm_num
  have e2 : (2 : Nat) ^ 5 = 32 := by norm_num
  have e3 : (2 : Nat) ^ 16 = 65536 := by norm_num
  rw [e1, e2, e3]
  omega

/-- C1 witness: instantiating `convert_color_packed_word` at `(200, 100, 50)`. -/
theorem convert_color_packed_word_witness :
    (200 : Nat) ≤ 255 ∧
    convert_color 200 100 50 =
      (200 * 31 / 255) * 2 ^ 11 + (100 * 63 / 255) * 2 ^ 5 + (50 * 31 / 255) :=
  ⟨by decide, (convert_color_packed_word 200 100 50
    (by decide) (by decide) (by decide)).1⟩

/-- Embeds `FRAME_PREAMBLE` (g19.py lines 32-35): 16 literal header bytes,
then `range(16, 256)`, then `range(256)`. -/
def FRAME_PREAMBLE : List Nat :=
  [0x10, 0x0f, 0x00, 0x58, 0x02, 0x00, 0x00, 0x00, 0x00, 0x00,
   0x00, 0x3f, 0x01, 0xef, 0x00, 0x0f] ++ List.range' 16 240 ++ List.range 256

/-- Embeds the slice-and-unpack `red, green, blue = data[index:index+3]`
(g19.py line 164); unpacking fails unless the slice has exactly 3 elements,
i.e. unless the suffix from `index` has at least 3 elements. -/
def readPixel (data : List Nat) (index : Nat) : Option (Nat × Nat × Nat) :=
  match data.drop index with
  | r :: g :: b :: _ => some (r, g, b)
  | _ => none

/-- The inner `for y in range(240)` visit order of one x-column. -/
def colIndices (x : Nat) : List (Nat × Nat) :=
  (List.range 240).map (fun y => (x, y))

/-- The `(x, y)` visit order of `G19.show`'s nested loops (g19.py lines
161-162): `for x in range(320): for y in range(240)`. -/
def frameIndices : List (Nat × Nat) :=
  (List.range 320).flatMap colIndices

/-- Embeds the body of `G19.show`'s loop (g19.py lines 163-167): for each
visited `(x, y)`, read the triple at `y*320*3 + x*3`, convert it, and append
the low byte then the high byte of the 16-bit word. -/
def encodePixels (data : List Nat) : List (Nat × Nat) → Option (List Nat)
  | [] => some []
  | (x, y) :: rest =>
    match readPixel data (y * 320 * 3 + x * 3) with
    | none => none
    | some (red, green, blue) =>
      match encodePixels data rest with
      | none => none
      | some frame =>
        let color := convert_color red green blue
        some ((color &&& 0xff) :: (color >>> 8) :: frame)

/-- Embeds `G19.show` (g19.py lines 159-169): the byte list handed to
`self._device.write(2, FRAME_PREAMBLE + frame, 10)`. -/
def g19_show (data : List Nat) : Option (List Nat) :=
  (encodePixels data frameIndices).map (fun frame => FRAME_PREAMBLE ++ frame)

/-- The two bytes `G19.show` appends for the pixel visited at `(x, y)`,
expressed through positional reads of the input buffer. -/
def pixBytes (data : List Nat) (p : Nat × Nat) : List Nat :=
  let index := p.2 * 320 * 3 + p.1 * 3
  let color := convert_color (data.getD index 0) (data.getD (index + 1) 0)
    (data.getD (index + 2) 0)
  [color &&& 0xff, color >>> 8]

/-- Error taxonomy of the spec for the operations modelled here. -/
inductive GErr where
  | OutOfRange
  | InvalidInput
  | InvalidState
  | TransferFailed
  deriving DecidableEq

/-- Embeds `Service.show` (g19.py lines 250-253): `assert len(frame) ==
3 * 320 * 240` (InvalidInput on failure), then `self.g19.show(frame)`. -/
def serviceShow (frame : List Nat) : Except GErr (List Nat) :=
  if frame.length = 3 * 320 * 240 then
    match g19_show frame with
    | some out => .ok out
    | none => .error .InvalidInput
  else .error .InvalidInput

theorem readPixel_eq (data : List Nat) (index : Nat) (h : index + 3 ≤ data.length) :
    readPixel data index =
      some (data.getD index 0, data.getD (index + 1) 0, data.getD (index + 2) 0) := by
  have h0 : index < data.length := by omega
  have h1 : index + 1 < data.length := by omega
  have h2 : index + 2 < data.length := by omega
  unfold readPixel
  rw [List.drop_eq_getElem_cons h0, List.drop_eq_getElem_cons h1,
    List.drop_eq_getElem_cons h2]
  rw [List.getD_eq_getElem _ _ h0, List.getD_eq_getElem _ _ h1,
    List.getD_eq_getElem _ _ h2]

theorem encodePixels_eq_flatMap (data : List Nat) (l : List (Nat × Nat))
    (h : ∀ p ∈ l, p.2 * 320 * 3 + p.1 * 3 + 3 ≤ data.length) :
    encodePixels data l = some (l.flatMap (pixBytes data)) := by
  induction l with
  | nil => simp [encodePixels]
  | cons p rest ih =>
    obtain ⟨x, y⟩ := p
    have hp : y * 320 * 3 + x * 3 + 3 ≤ data.length := h (x, y) (List.mem_cons_self _ _)
    rw [List.flatMap_cons, encodePixels, readPixel_eq data _ hp,
      ih (fun q hq => h q (List.mem_cons_of_mem _ hq))]
    simp [pixBytes]

theorem flatMap_length_const {α β : Type} (f : α → List β) (k : Nat)
    (hf : ∀ a, (f a).length = k) (l : List α) :
    (l.flatMap f).length = k * l.length := by
  induction l with
  | nil => simp
  | cons a l ih => simp [ih, hf a, Nat.mul_add, Nat.mul_one]; omega

theorem flatMap_getD_const {α β : Type} (f : α → List β) (k : Nat)
    (hf : ∀ a, (f a).length = k) (d : β) (e : α) (l : List α) :
    ∀ (i j : Nat), i < l.length → j < k →
      (l.flatMap f).getD (k * i + j) d = (f (l.getD i e)).getD j d := by
  induction l with
  | nil => intro i j hi _; simp at hi
  | cons a l ih =>
    intro i j hi hj
    cases i with
    | zero =>
      rw [List.flatMap_cons, Nat.mul_zero, Nat.zero_add,
        List.getD_append _ _ _ _ (by rw [hf a]; exact hj)]
      rfl
    | succ i =>
      have harith : k * (i + 1) + j = k + (k * i + j) := by ring
      rw [List.flatMap_cons, harith,
        List.getD_append_right _ _ _ _ (by rw [hf a]; omega)]
      rw [hf a, Nat.add_sub_cancel_left]
      exact ih i j (by simpa using hi) hj

theorem mem_frameIndices {p : Nat × Nat} (hp : p ∈ frameIndices) :
    p.1 < 320 ∧ p.2 < 240 := by
  simp only [frameIndices, colIndices, List.mem_flatMap, List.mem_map,
    List.mem_range] at hp
  obtain ⟨x, hx, y, hy, rfl⟩ := hp
  exact ⟨hx, hy⟩

theorem encodePixels_frame (data : List Nat) (hlen : 3 * 320 * 240 ≤ data.length) :
    encodePixels data frameIndices = some (frameIndices.flatMap (pixBytes data)) := by
  apply encodePixels_eq_flatMap
  intro p hp
  obtain ⟨hx, hy⟩ := mem_frameIndices hp
  omega

theorem colIndices_length (x : Nat) : (colIndices x).length = 240 := by
  simp [colIndices]

theorem frameIndices_length : frameIndices.length = 240 * 320 := by
  rw [frameIndices, flatMap_length_const colIndices 240 colIndices_length]
  simp

theorem range_getD (n x : Nat) (h : x < n) : (List.range n).getD x 0 = x := by
  rw [List.getD_eq_getElem _ _ (by simpa using h)]
  simp

theorem frameIndices_getD (x y : Nat) (hx : x < 320) (hy : y < 240) :
    frameIndices.getD (240 * x + y) (0, 0) = (x, y) := by
  rw [frameIndices,
    flatMap_getD_const colIndices 240 colIndices_length (0, 0) 0 _ x y
      (by simpa using hx) hy]
  rw [range_getD 320 x hx,
    List.getD_eq_getElem _ _ (by simp [colIndices, hy])]
  simp [colIndices]

theorem pixBytes_length (data : List Nat) (p : Nat × Nat) :
    (pixBytes data p).length = 2 := rfl

theorem payload_getD (data : List Nat) (x y : Nat) (hx : x < 320) (hy : y < 240) :
    (frameIndices.flatMap (pixBytes data)).getD (2 * (240 * x + y)) 0 =
      convert_color (data.getD (y * 320 * 3 + x * 3) 0)
        (data.getD (y * 320 * 3 + x * 3 + 1) 0)
        (data.getD (y * 320 * 3 + x * 3 + 2) 0) &&& 0xff ∧
    (frameIndices.flatMap (pixBytes data)).getD (2 * (240 * x + y) + 1) 0 =
      convert_color (data.getD (y * 320 * 3 + x * 3) 0)
        (data.getD (y * 320 * 3 + x * 3 + 1) 0)
        (data.getD (y * 320 * 3 + x * 3 + 2) 0) >>> 8 := by
  have hi : 240 * x + y < frameIndices.length := by
    rw [frameIndices_length]; omega
  have h0 := flatMap_getD_const (pixBytes data) 2 (pixBytes_length data) 0 (0, 0)
    frameIndices (240 * x + y) 0 hi (by omega)
  have h1 := flatMap_getD_const (pixBytes data) 2 (pixBytes_length data) 0 (0, 0)
    frameIndices (240 * x + y) 1 hi (by omega)
  rw [frameIndices_getD x y hx hy] at h0 h1
  constructor
  · simpa [pixBytes] using h0
  · simpa [pixBytes] using h1

theorem FRAME_PREAMBLE_length : FRAME_PREAMBLE.length = 512 := by
  simp [FRAME_PREAMBLE]

/-- C2 (amended): for every valid 230,400-byte pixel buffer, the encoded
frame produced by show is the 512-byte preamble — 16 literal header bytes,
then the byte sequence 16..255, then 0..255 — followed by 2*320*240 payload
bytes: total length 512 + 153,600 (not 272 + 153,600 as the claim states),
and the first 16 bytes equal the literal preamble header. -/
theorem show_output_structure (data : List Nat) (hlen : data.length = 3 * 320 * 240) :
    ∃ out payload,
      g19_show data = some out ∧
      encodePixels data frameIndices = some payload ∧
      out = ([0x10, 0x0f, 0x00, 0x58, 0x02, 0x00, 0x00, 0x00, 0x00, 0x00,
        0x00, 0x3f, 0x01, 0xef, 0x00, 0x0f] ++ List.range' 16 240 ++
        List.range 256) ++ payload ∧
      payload.length = 2 * 320 * 240 ∧
      out.length = 512 + 2 * 320 * 240 ∧
      out.take 16 = [0x10, 0x0f, 0x00, 0x58, 0x02, 0x00, 0x00, 0x00, 0x00, 0x00,
        0x00, 0x3f, 0x01, 0xef, 0x00, 0x0f] := by
  have hpay := encodePixels_frame data (le_of_eq hlen.symm)
  have hplen : (frameIndices.flatMap (pixBytes data)).length = 2 * 320 * 240 := by
    rw [flatMap_length_const (pixBytes data) 2 (pixBytes_length data) frameIndices,
      frameIndices_length]
  refine ⟨FRAME_PREAMBLE ++ frameIndices.flatMap (pixBytes data),
    frameIndices.flatMap (pixBytes data), ?_, hpay, rfl, hplen, ?_, ?_⟩
  · rw [g19_show, hpay]; rfl
  · rw [List.length_append, FRAME_PREAMBLE_length, hplen]
  · rw [FRAME_PREAMBLE, List.append_assoc, List.append_assoc,
      List.take_left' (by rfl)]

/-- C2 witness: instantiating the amended statement on the all-black frame. -/
theorem show_output_structure_witness :
    ∃ out, g19_show (List.replicate (3 * 320 * 240) 0) = some out ∧
      out.length = 512 + 2 * 320 * 240 := by
  obtain ⟨out, _, h1, _, _, _, h5, _⟩ :=
    show_output_structure (List.replicate (3 * 320 * 240) 0)
      (by rw [List.length_replicate])
  exact ⟨out, h1, h5⟩

/-- C2 counterexample: on a valid all-black buffer the frame produced by show
has length 512 + 153,600 = 154,112, not 272 + 153,600 = 153,872 as claimed. -/
theorem show_output_length_counterexample :
    ∃ out, g19_show (List.replicate (3 * 320 * 240) 0) = some out ∧
      out.length ≠ 272 + 2 * 320 * 240 := by
  have hpay := encodePixels_frame (List.replicate (3 * 320 * 240) 0)
    (by rw [List.length_replicate])
  refine ⟨_, by rw [g19_show, hpay]; rfl, ?_⟩
  rw [List.length_append, FRAME_PREAMBLE_length,
    flatMap_length_const (pixBytes _) 2 (pixBytes_length _) frameIndices,
    frameIndices_length]
  omega

/-- C3 (amended): the payload is column-major — for each x-column 0..319 and
each y-row 0..239 the RGB triple at linear input index `y*320*3 + x*3` is
encoded by the color codec and its word occupies payload offsets
`2*(240*x + y)` (low byte) and `2*(240*x + y) + 1` (high byte); consequently
the word for pixel (x=0,y=1), at offset 2, appears BEFORE the word for pixel
(x=1,y=0), at offset 480 — not the other way around as the claim states. -/
theorem show_payload_order (data : List Nat) (x y : Nat) (hx : x < 320)
    (hy : y < 240) (hlen : data.length = 3 * 320 * 240) :
    ∃ payload, encodePixels data frameIndices = some payload ∧
      payload.getD (2 * (240 * x + y)) 0 =
        convert_color (data.getD (y * 320 * 3 + x * 3) 0)
          (data.getD (y * 320 * 3 + x * 3 + 1) 0)
          (data.getD (y * 320 * 3 + x * 3 + 2) 0) &&& 0xff ∧
      payload.getD (2 * (240 * x + y) + 1) 0 =
        convert_color (data.getD (y * 320 * 3 + x * 3) 0)
          (data.getD (y * 320 * 3 + x * 3 + 1) 0)
          (data.getD (y * 320 * 3 + x * 3 + 2) 0) >>> 8 :=
  ⟨_, encodePixels_frame data (le_of_eq hlen.symm),
    (payload_getD data x y hx hy).1, (payload_getD data x y hx hy).2⟩

/-- C3 witness: instantiating the amended statement at pixel (x=2,y=3) of the
all-black frame. -/
theorem show_payload_order_witness :
    ∃ payload,
      encodePixels (List.replicate (3 * 320 * 240) 0) frameIndices = some payload ∧
      payload.getD (2 * (240 * 2 + 3)) 0 =
        convert_color ((List.replicate (3 * 320 * 240) 0).getD (3 * 320 * 3 + 2 * 3) 0)
          ((List.replicate (3 * 320 * 240) 0).getD (3 * 320 * 3 + 2 * 3 + 1) 0)
          ((List.replicate (3 * 320 * 240) 0).getD (3 * 320 * 3 + 2 * 3 + 2) 0) &&& 0xff :=
  match show_payload_order (List.replicate (3 * 320 * 240) 0) 2 3
    (by decide) (by decide) (by rw [List.length_replicate]) with
  | ⟨payload, h1, h2, _⟩ => ⟨payload, h1, h2⟩

theorem replicate_zero_getD (n i : Nat) : (List.replicate n (0 : Nat)).getD i 0 = 0 := by
  rcases Nat.lt_or_ge i n with h | h
  · rw [List.getD_eq_getElem _ _ (by rw [List.length_replicate]; exact h)]
    exact List.getElem_replicate _ _
  · rw [List.getD_eq_default _ _ (by rw [List.length_replicate]; exact h)]

/-- A valid pixel buffer that is white exactly at pixel (x=0,y=1) — linear
input indices 960..962 — and black everywhere else. -/
def probeData : List Nat :=
  List.replicate 960 0 ++ 255 :: 255 :: 255 :: List.replicate 229437 0

theorem probeData_length : probeData.length = 230400 := by
  rw [probeData, List.length_append, List.length_replicate, List.length_cons,
    List.length_cons, List.length_cons, List.length_replicate]

theorem probeData_getD_960 : probeData.getD 960 0 = 255 := by
  rw [probeData,
    List.getD_append_right _ _ _ _ (le_of_eq (List.length_replicate 960 0)),
    List.length_replicate]
  rfl

theorem probeData_getD_961 : probeData.getD 961 0 = 255 := by
  rw [probeData,
    List.getD_append_right _ _ _ _ (by rw [List.length_replicate]; omega),
    List.length_replicate]
  rfl

theorem probeData_getD_962 : probeData.getD 962 0 = 255 := by
  rw [probeData,
    List.getD_append_right _ _ _ _ (by rw [List.length_replicate]; omega),
    List.length_replicate]
  rfl

theorem probeData_getD_low (i : Nat) (h : i < 960) : probeData.getD i 0 = 0 := by
  rw [probeData, List.getD_append _ _ _ _ (by rw [List.length_replicate]; exact h)]
  exact replicate_zero_getD 960 i

/-- C3 counterexample: the loop visits (x=0,y=1) at position 1 and (x=1,y=0)
at position 240, and on the buffer that is white exactly at (x=0,y=1) the
white word 0xFFFF occupies payload offsets 2 and 3 while the word for
(x=1,y=0) occupies offsets 480 and 481; hence the encoded word for (1,0)
appears AFTER, not before, the word for (0,1). -/
theorem show_payload_order_counterexample :
    frameIndices.getD 1 (0, 0) = (0, 1) ∧
    frameIndices.getD 240 (0, 0) = (1, 0) ∧
    ∃ payload,
      encodePixels probeData frameIndices = some payload ∧
      payload.getD 2 0 = 0xff ∧ payload.getD 3 0 = 0xff ∧
      payload.getD 480 0 = 0 ∧ payload.getD 481 0 = 0 := by
  obtain ⟨k01a, k01b⟩ := payload_getD probeData 0 1 (by decide) (by decide)
  obtain ⟨k10a, k10b⟩ := payload_getD probeData 1 0 (by decide) (by decide)
  rw [(by norm_num : 2 * (240 * 0 + 1) = 2), (by norm_num : 1 * 320 * 3 + 0 * 3 = 960),
    (by norm_num : (960 : Nat) + 1 = 961), (by norm_num : (960 : Nat) + 2 = 962)] at k01a
  rw [(by norm_num : 2 * (240 * 0 + 1) + 1 = 3), (by norm_num : 1 * 320 * 3 + 0 * 3 = 960),
    (by norm_num : (960 : Nat) + 1 = 961), (by norm_num : (960 : Nat) + 2 = 962)] at k01b
  rw [(by norm_num : 2 * (240 * 1 + 0) = 480), (by norm_num : 0 * 320 * 3 + 1 * 3 = 3),
    (by norm_num : (3 : Nat) + 1 = 4), (by norm_num : (3 : Nat) + 2 = 5)] at k10a
  rw [(by norm_num : 2 * (240 * 1 + 0) + 1 = 481), (by norm_num : 0 * 320 * 3 + 1 * 3 = 3),
    (by norm_num : (3 : Nat) + 1 = 4), (by norm_num : (3 : Nat) + 2 = 5)] at k10b
  rw [probeData_getD_960, probeData_getD_961, probeData_getD_962] at k01a k01b
  rw [probeData_getD_low 3 (by omega), probeData_getD_low 4 (by omega),
    probeData_getD_low 5 (by omega)] at k10a k10b
  refine ⟨frameIndices_getD 0 1 (by decide) (by decide),
    frameIndices_getD 1 0 (by decide) (by decide), _,
    encodePixels_frame probeData (by rw [probeData_length]),
    ?_, ?_, ?_, ?_⟩
  · exact k01a.trans (by decide)
  · exact k01b.trans (by decide)
  · exact k10a.trans (by decide)
  · exact k10b.trans (by decide)

/-- C8: serviceShow succeeds exactly on buffers of length 3*320*240 =
230,400; on any other length it fails with InvalidInput. -/
theorem serviceShow_invalid_input (frame : List Nat) :
    ((∃ out, serviceShow frame = .ok out) ↔ frame.length = 3 * 320 * 240) ∧
    (frame.length ≠ 3 * 320 * 240 → serviceShow frame = .error .InvalidInput) := by
  constructor
  · constructor
    · intro h
      obtain ⟨out, hout⟩ := h
      by_contra hlen
      rw [serviceShow, if_neg hlen] at hout
      exact Except.noConfusion hout
    · intro hlen
      have hpay := encodePixels_frame frame (le_of_eq hlen.symm)
      refine ⟨FRAME_PREAMBLE ++ frameIndices.flatMap (pixBytes frame), ?_⟩
      rw [serviceShow, if_pos hlen]
      rw [g19_show, hpay]
      rfl
  · intro hlen
    rw [serviceShow, if_neg hlen]

/-- C8 witness: a valid all-black 230,400-byte buffer succeeds; the empty
buffer fails with InvalidInput. -/
theorem serviceShow_invalid_input_witness :
    (∃ out, serviceShow (List.replicate (3 * 320 * 240) 0) = .ok out) ∧
    serviceShow [] = .error .InvalidInput :=
  ⟨(serviceShow_invalid_input (List.replicate (3 * 320 * 240) 0)).1.mpr
      (by rw [List.length_replicate]),
    (serviceShow_invalid_input []).2 (by decide)⟩

/-- Embeds the ControlKey enumeration (g19.py lines 38-48). -/
inductive ControlKey where
  | SETTINGS | BACK | MENU | OK | RIGHT | LEFT | DOWN | UP
  deriving DecidableEq, Fintype

/-- The bit value of each ControlKey member. -/
def ControlKey.val : ControlKey → Nat
  | .SETTINGS => 0x01
  | .BACK => 0x02
  | .MENU => 0x04
  | .OK => 0x08
  | .RIGHT => 0x10
  | .LEFT => 0x20
  | .DOWN => 0x40
  | .UP => 0x80

/-- ControlKey members in declaration order (iteration order of the enum). -/
def ControlKey.all : List ControlKey :=
  [.SETTINGS, .BACK, .MENU, .OK, .RIGHT, .LEFT, .DOWN, .UP]

/-- Embeds the GameKey enumeration (g19.py lines 51-71). -/
inductive GameKey where
  | G01 | G02 | G03 | G04 | G05 | G06 | G07 | G08 | G09 | G10 | G11 | G12
  | M1 | M2 | M3 | MR | LIGHT
  deriving DecidableEq, Fintype

/-- The bit value of each GameKey member. -/
def GameKey.val : GameKey → Nat
  | .G01 => 0x0001
  | .G02 => 0x0002
  | .G03 => 0x0004
  | .G04 => 0x0008
  | .G05 => 0x0010
  | .G06 => 0x0020
  | .G07 => 0x0040
  | .G08 => 0x0080
  | .G09 => 0x0100
  | .G10 => 0x0200
  | .G11 => 0x0400
  | .G12 => 0x0800
  | .M1 => 0x1000
  | .M2 => 0x2000
  | .M3 => 0x4000
  | .MR => 0x8000
  | .LIGHT => 0x80000

/-- GameKey members in declaration order (iteration order of the enum). -/
def GameKey.all : List GameKey :=
  [.G01, .G02, .G03, .G04, .G05, .G06, .G07, .G08, .G09, .G10, .G11, .G12,
   .M1, .M2, .M3, .MR, .LIGHT]

/-- Truthiness of the Python test `keys & key` (g19.py lines 179 and 193). -/
def keyPressed (mask v : Nat) : Bool := decide (mask &&& v ≠ 0)

/-- Dictionary update `mapping[key] = pressed`. -/
def updateFun {K : Type} [DecidableEq K] (stored : K → Bool) (k : K) (b : Bool) :
    K → Bool :=
  fun j => if j = k then b else stored j

/-- Embeds one pass of the edge-detection loop in `G19._run` (g19.py lines
178-186 for the game keys, 192-200 for the control keys): for each enum
member in declaration order, fire a key-down if the bit is set and the
stored state was false, a key-up if the bit is clear and the stored state
was true, and store the new boolean.  Returns the fired events in order and
the updated mapping. -/
def diffKeys {K : Type} [DecidableEq K] (val : K → Nat) (keys : List K)
    (stored : K → Bool) (mask : Nat) : List (K × Bool) × (K → Bool) :=
  match keys with
  | [] => ([], stored)
  | k :: rest =>
    let pressed := keyPressed mask (val k)
    let fire : List (K × Bool) :=
      if pressed then (if stored k then [] else [(k, true)])
      else (if stored k then [(k, false)] else [])
    let result := diffKeys val rest (updateFun stored k pressed) mask
    (fire ++ result.1, result.2)

/-- The poll loop across cycles (g19.py lines 171-202): one diff pass per
raw bitmask read, events concatenated in firing order. -/
def runCycles {K : Type} [DecidableEq K] (val : K → Nat) (keys : List K)
    (stored : K → Bool) : List Nat → List (K × Bool) × (K → Bool)
  | [] => ([], stored)
  | m :: ms =>
    let step := diffKeys val keys stored m
    let rest := runCycles val keys step.2 ms
    (step.1 ++ rest.1, rest.2)

theorem diffKeys_stored {K : Type} [DecidableEq K] (val : K → Nat) (keys : List K)
    (stored : K → Bool) (mask : Nat) (j : K) :
    (diffKeys val keys stored mask).2 j =
      if j ∈ keys then keyPressed mask (val j) else stored j := by
  induction keys generalizing stored with
  | nil => simp [diffKeys]
  | cons k rest ih =>
    simp only [diffKeys]
    rw [ih (updateFun stored k (keyPressed mask (val k)))]
    by_cases hjr : j ∈ rest
    · simp [hjr, List.mem_cons]
    · by_cases hjk : j = k
      · subst hjk
        simp [hjr, updateFun]
      · simp [hjr, hjk, updateFun, List.mem_cons]

theorem diffKeys_events {K : Type} [DecidableEq K] (val : K → Nat) (keys : List K)
    (stored : K → Bool) (mask : Nat) (hnd : keys.Nodup) :
    (diffKeys val keys stored mask).1 =
      (keys.filter (fun k => keyPressed mask (val k) != stored k)).map
        (fun k => (k, keyPressed mask (val k))) := by
  induction keys generalizing stored with
  | nil => simp [diffKeys]
  | cons k rest ih =>
    obtain ⟨hk, hrest⟩ := List.nodup_cons.mp hnd
    simp only [diffKeys]
    rw [ih (updateFun stored k (keyPressed mask (val k))) hrest]
    have hcong : rest.filter
          (fun j => keyPressed mask (val j) != updateFun stored k (keyPressed mask (val k)) j) =
        rest.filter (fun j => keyPressed mask (val j) != stored j) := by
      apply List.filter_congr
      intro j hj
      have hne : j ≠ k := fun h => hk (h ▸ hj)
      simp [updateFun, hne]
    rw [hcong, List.filter_cons]
    cases hp : keyPressed mask (val k) <;> cases hs : stored k <;> simp [hp, hs]

theorem diffKeys_filter_not_mem {K : Type} [DecidableEq K] (val : K → Nat)
    (keys : List K) (stored : K → Bool) (mask : Nat) (k : K)
    (hnd : keys.Nodup) (hnk : k ∉ keys) :
    (diffKeys val keys stored mask).1.filter (fun e => e.1 == k) = [] := by
  rw [diffKeys_events val keys stored mask hnd]
  rw [List.filter_eq_nil_iff]
  intro e he
  obtain ⟨j, hj, rfl⟩ := List.mem_map.mp he
  have hjk : j ≠ k := fun h => hnk (h ▸ List.mem_of_mem_filter hj)
  simp [hjk]

theorem diffKeys_filter_key {K : Type} [DecidableEq K] (val : K → Nat)
    (keys : List K) (stored : K → Bool) (mask : Nat) (k : K)
    (hnd : keys.Nodup) (hk : k ∈ keys) :
    (diffKeys val keys stored mask).1.filter (fun e => e.1 == k) =
      if keyPressed mask (val k) == stored k then []
      else [(k, keyPressed mask (val k))] := by
  induction keys generalizing stored with
  | nil => cases hk
  | cons a rest ih =>
    obtain ⟨ha, hrest⟩ := List.nodup_cons.mp hnd
    simp only [diffKeys, List.filter_append]
    by_cases hak : a = k
    · subst hak
      rw [diffKeys_filter_not_mem val rest _ mask a hrest ha]
      cases hp : keyPressed mask (val a) <;> cases hs : stored a <;>
        simp [hp, hs]
    · have hkr : k ∈ rest := by
        rcases List.mem_cons.mp hk with h | h
        · exact absurd h.symm hak
        · exact h
      rw [ih (updateFun stored a (keyPressed mask (val a))) hrest hkr]
      have hka : k ≠ a := fun h => hak h.symm
      have hup : updateFun stored a (keyPressed mask (val a)) k = stored k := by
        simp [updateFun, hka]
      rw [hup]
      cases hp : keyPressed mask (val a) <;> cases hs : stored a <;>
        simp [hp, hs, hak]

/-- The subsequence of new pressed-states that differ from the running
state, starting from state b: exactly the directions of the edge-triggered
events for one key across cycles. -/
def transitions (b : Bool) : List Bool → List Bool
  | [] => []
  | p :: ps => if p = b then transitions b ps else p :: transitions p ps

theorem runCycles_trace {K : Type} [DecidableEq K] (val : K → Nat)
    (keys : List K) (stored : K → Bool) (ms : List Nat) (k : K)
    (hnd : keys.Nodup) (hk : k ∈ keys) :
    ((runCycles val keys stored ms).1.filter (fun e => e.1 == k)).map Prod.snd =
      transitions (stored k) (ms.map (fun m => keyPressed m (val k))) := by
  induction ms generalizing stored with
  | nil => simp [runCycles, transitions]
  | cons m ms ih =>
    simp only [runCycles, List.map_cons, transitions, List.filter_append,
      List.map_append]
    rw [diffKeys_filter_key val keys stored m k hnd hk]
    rw [ih ((diffKeys val keys stored m).2)]
    rw [diffKeys_stored val keys stored m k, if_pos hk]
    by_cases h : keyPressed m (val k) = stored k
    · rw [h]
      simp
    · have hbeq : (keyPressed m (val k) == stored k) = false := by
        simp [h]
      rw [hbeq, if_neg h]
      simp

theorem transitions_chain (ps : List Bool) :
    ∀ b, List.Chain' (fun a c => a ≠ c) (transitions b ps) ∧
      ∀ d, (transitions b ps).head? = some d → d ≠ b := by
  induction ps with
  | nil =>
    intro b
    simp [transitions]
  | cons p ps ih =>
    intro b
    by_cases h : p = b
    · rw [transitions, if_pos h]
      exact ih b
    · rw [transitions, if_neg h]
      obtain ⟨hch, hhd⟩ := ih p
      refine ⟨List.chain'_cons'.mpr ⟨fun d hd => (hhd d hd).symm, hch⟩, ?_⟩
      intro d hd
      rw [List.head?_cons, Option.some_inj] at hd
      exact hd ▸ h

theorem gameAll_nodup : GameKey.all.Nodup := by decide

theorem gameMem_all : ∀ k : GameKey, k ∈ GameKey.all := by decide

theorem GameKey.val_disjoint : ∀ j k : GameKey, j ≠ k → j.val &&& k.val = 0 := by
  decide

theorem GameKey.val_ne_zero : ∀ k : GameKey, k.val ≠ 0 := by decide

theorem controlAll_nodup : ControlKey.all.Nodup := by decide

theorem controlMem_all : ∀ k : ControlKey, k ∈ ControlKey.all := by decide

theorem controlVal_disjoint : ∀ j k : ControlKey, j ≠ k → j.val &&& k.val = 0 := by
  decide

theorem controlVal_ne_zero : ∀ k : ControlKey, k.val ≠ 0 := by decide

theorem filter_eq_single {K : Type} [DecidableEq K] (l : List K) (p : K → Bool)
    (k : K) (hnd : l.Nodup) (hk : k ∈ l) (hp : ∀ j, p j = true ↔ j = k) :
    l.filter p = [k] := by
  induction l with
  | nil => cases hk
  | cons a rest ih =>
    obtain ⟨ha, hrest⟩ := List.nodup_cons.mp hnd
    rw [List.filter_cons]
    by_cases hak : a = k
    · subst hak
      have hpa : p a = true := (hp a).mpr rfl
      have hnil : rest.filter p = [] := by
        rw [List.filter_eq_nil_iff]
        intro j hj
        intro hpj
        exact ha ((hp j).mp hpj ▸ hj)
      simp [hpa, hnil]
    · have hpa : p a = false := by
        cases hq : p a
        · rfl
        · exact absurd ((hp a).mp hq) hak
      have hkr : k ∈ rest := by
        rcases List.mem_cons.mp hk with h | h
        · exact absurd h.symm hak
        · exact h
      simp only [hpa, Bool.false_eq_true, if_false]
      exact ih hrest hkr

theorem diff_bundle {K : Type} [DecidableEq K] (val : K → Nat) (keys : List K)
    (hnd : keys.Nodup) (hmem : ∀ k : K, k ∈ keys)
    (hdisj : ∀ j k : K, j ≠ k → val j &&& val k = 0)
    (hnz : ∀ k : K, val k ≠ 0) (stored : K → Bool) (mask : Nat) :
    (diffKeys val keys stored mask).1 =
      (keys.filter (fun k => keyPressed mask (val k) != stored k)).map
        (fun k => (k, keyPressed mask (val k))) ∧
    (∀ k : K, (diffKeys val keys stored mask).2 k = keyPressed mask (val k)) ∧
    (diffKeys val keys ((diffKeys val keys stored mask).2) mask).1 = [] ∧
    (∀ (k : K) (mask0 : Nat),
      (∀ j : K, stored j = keyPressed mask0 (val j)) →
      keyPressed mask0 (val k) = false →
      (diffKeys val keys stored (mask0 ||| val k)).1 = [(k, true)]) := by
  refine ⟨diffKeys_events _ _ _ _ hnd, ?_, ?_, ?_⟩
  · intro k
    rw [diffKeys_stored, if_pos (hmem k)]
  · rw [diffKeys_events _ _ _ _ hnd]
    have hnil : keys.filter
        (fun k => keyPressed mask (val k) !=
          (diffKeys val keys stored mask).2 k) = [] := by
      rw [List.filter_eq_nil_iff]
      intro j _
      rw [diffKeys_stored, if_pos (hmem j)]
      simp
    rw [hnil, List.map_nil]
  · intro k mask0 hstored hclear
    have hzero : mask0 &&& val k = 0 := by
      have h := hclear
      unfold keyPressed at h
      simpa using h
    have hpk : keyPressed (mask0 ||| val k) (val k) = true := by
      unfold keyPressed
      rw [Nat.and_distrib_right, hzero, Nat.and_self, Nat.zero_or]
      simp [hnz k]
    have hpj : ∀ j : K, j ≠ k →
        keyPressed (mask0 ||| val k) (val j) = keyPressed mask0 (val j) := by
      intro j hj
      unfold keyPressed
      rw [Nat.and_distrib_right, hdisj k j (fun h => hj h.symm), Nat.or_zero]
    rw [diffKeys_events _ _ _ _ hnd]
    have hp : ∀ j : K,
        ((keyPressed (mask0 ||| val k) (val j) != stored j) = true) ↔ j = k := by
      intro j
      by_cases hj : j = k
      · subst hj
        simp [hpk, hstored j, hclear]
      · rw [hpj j hj, hstored j]
        simp [hj]
    rw [filter_eq_single keys _ k hnd (hmem k) hp]
    simp [hpk]

/-- C4: one edge-detection pass over either stored mapping — the GameKey
dict and the ControlKey dict alike — emits, in enumeration declaration
order, exactly one transition per key whose bit in the bitmask differs from
its stored boolean (tagged with the new state), updates every stored
boolean to match the bitmask, processing the same bitmask twice in a row
emits zero transitions the second time, and setting one previously clear
key bit emits exactly one key-down for the key owning that bit. -/
theorem diff_emits_changed_keys (stored : GameKey → Bool) (mask : Nat) :
    (diffKeys GameKey.val GameKey.all stored mask).1 =
      (GameKey.all.filter (fun k => keyPressed mask k.val != stored k)).map
        (fun k => (k, keyPressed mask k.val)) ∧
    (∀ k : GameKey,
      (diffKeys GameKey.val GameKey.all stored mask).2 k = keyPressed mask k.val) ∧
    (diffKeys GameKey.val GameKey.all
      ((diffKeys GameKey.val GameKey.all stored mask).2) mask).1 = [] ∧
    (∀ (k : GameKey) (mask0 : Nat),
      (∀ j : GameKey, stored j = keyPressed mask0 j.val) →
      keyPressed mask0 k.val = false →
      (diffKeys GameKey.val GameKey.all stored (mask0 ||| k.val)).1 = [(k, true)]) ∧
    (∀ (storedC : ControlKey → Bool) (maskC : Nat),
      (diffKeys ControlKey.val ControlKey.all storedC maskC).1 =
        (ControlKey.all.filter (fun k => keyPressed maskC k.val != storedC k)).map
          (fun k => (k, keyPressed maskC k.val)) ∧
      (∀ k : ControlKey,
        (diffKeys ControlKey.val ControlKey.all storedC maskC).2 k =
          keyPressed maskC k.val) ∧
      (diffKeys ControlKey.val ControlKey.all
        ((diffKeys ControlKey.val ControlKey.all storedC maskC).2) maskC).1 = [] ∧
      (∀ (k : ControlKey) (mask0 : Nat),
        (∀ j : ControlKey, storedC j = keyPressed mask0 j.val) →
        keyPressed mask0 k.val = false →
        (diffKeys ControlKey.val ControlKey.all storedC (mask0 ||| k.val)).1 =
          [(k, true)])) := by
  have hg := diff_bundle GameKey.val GameKey.all gameAll_nodup gameMem_all
    GameKey.val_disjoint GameKey.val_ne_zero stored mask
  exact ⟨hg.1, hg.2.1, hg.2.2.1, hg.2.2.2,
    fun storedC maskC => diff_bundle ControlKey.val ControlKey.all
      controlAll_nodup controlMem_all controlVal_disjoint controlVal_ne_zero
      storedC maskC⟩

/-- C4 witness: from the all-clear state, turning on the G05 bit emits
exactly the key-down for G05, and turning on the OK bit of the control pad
emits exactly the key-down for OK. -/
theorem diff_emits_changed_keys_witness :
    (diffKeys GameKey.val GameKey.all (fun _ => false) (0 ||| GameKey.G05.val)).1 =
      [(GameKey.G05, true)] ∧
    (diffKeys ControlKey.val ControlKey.all (fun _ => false)
        (0 ||| ControlKey.OK.val)).1 = [(ControlKey.OK, true)] :=
  ⟨(diff_emits_changed_keys (fun _ => false) 0).2.2.2.1 GameKey.G05 0
      (fun j => by simp [keyPressed]) (by decide),
    ((diff_emits_changed_keys (fun _ => false) 0).2.2.2.2 (fun _ => false) 0).2.2.2
      ControlKey.OK 0 (fun j => by simp [keyPressed]) (by decide)⟩

/-- The per-key direction trace of the notifications fired for GameKey k
across poll cycles, starting from the all-false initial mapping. -/
def gameTrace (masks : List Nat) (k : GameKey) : List Bool :=
  ((runCycles GameKey.val GameKey.all (fun _ => false) masks).1.filter
    (fun e => e.1 == k)).map Prod.snd

/-- The per-key direction trace for ControlKey k across poll cycles. -/
def controlTrace (masks : List Nat) (k : ControlKey) : List Bool :=
  ((runCycles ControlKey.val ControlKey.all (fun _ => false) masks).1.filter
    (fun e => e.1 == k)).map Prod.snd

/-- C5: for every key of either matrix and every sequence of poll cycles
starting from the all-false initial key state, the notifications for that
key strictly alternate (no two consecutive equal directions), and the first
one, if any, is a key-down. -/
theorem key_events_alternate (masks : List Nat) :
    (∀ k : GameKey,
      List.Chain' (fun a b => a ≠ b) (gameTrace masks k) ∧
      ∀ d, (gameTrace masks k).head? = some d → d = true) ∧
    (∀ k : ControlKey,
      List.Chain' (fun a b => a ≠ b) (controlTrace masks k) ∧
      ∀ d, (controlTrace masks k).head? = some d → d = true) := by
  constructor
  · intro k
    have ht : gameTrace masks k =
        transitions false (masks.map (fun m => keyPressed m k.val)) := by
      rw [gameTrace, runCycles_trace GameKey.val GameKey.all _ masks k
        gameAll_nodup (gameMem_all k)]
    obtain ⟨hch, hhd⟩ :=
      transitions_chain (masks.map (fun m => keyPressed m k.val)) false
    rw [ht]
    refine ⟨hch, fun d hd => ?_⟩
    have hne := hhd d hd
    cases d
    · exact absurd rfl hne
    · rfl
  · intro k
    have ht : controlTrace masks k =
        transitions false (masks.map (fun m => keyPressed m k.val)) := by
      rw [controlTrace, runCycles_trace ControlKey.val ControlKey.all _ masks k
        controlAll_nodup (controlMem_all k)]
    obtain ⟨hch, hhd⟩ :=
      transitions_chain (masks.map (fun m => keyPressed m k.val)) false
    rw [ht]
    refine ⟨hch, fun d hd => ?_⟩
    have hne := hhd d hd
    cases d
    · exact absurd rfl hne
    · rfl

/-- C5 witness: the trace of G01 under three cycles whose bitmasks are
1, 1, 0 strictly alternates. -/
theorem key_events_alternate_witness :
    List.Chain' (fun a b => a ≠ b) (gameTrace [1, 1, 0] GameKey.G01) :=
  ((key_events_alternate [1, 1, 0]).1 GameKey.G01).1

/-- Constant TYPE_CLASS = 0x20 of the legacy pyusb `usb` module. -/
def TYPE_CLASS : Nat := 0x20

/-- Constant TYPE_VENDOR = 0x40 of the legacy pyusb `usb` module. -/
def TYPE_VENDOR : Nat := 0x40

/-- Constant RECIP_INTERFACE = 0x01 of the legacy pyusb `usb` module. -/
def RECIP_INTERFACE : Nat := 0x01

/-- A control transfer as issued by `ctrl_transfer(requestType, request,
value, index, data, timeout)`. -/
structure Packet where
  requestType : Nat
  request : Nat
  value : Nat
  index : Nat
  data : List Int
  timeout : Nat
  deriving DecidableEq

/-- Cached state of a G19 session object.  `G19.__init__` (g19.py lines
115-119) sets color = (0,0,0) and brightness = 100; `stopped` records
whether `stop()` has been called (the `_stopped` threading event). -/
structure G19S where
  color : Int × Int × Int
  brightness : Int
  stopped : Bool
  deriving DecidableEq

/-- The state right after `G19.__init__`. -/
def initState : G19S := { color := (0, 0, 0), brightness := 100, stopped := false }

/-- Embeds `G19.stop` (g19.py lines 212-214): sets the stop event and joins
the poll thread; no cached command state is touched and no guard flag that
any command method would consult is installed. -/
def G19S.stop (s : G19S) : G19S := { s with stopped := true }

/-- The packet of the color setter (g19.py lines 130-136): data =
[7] + list(color), class request 0x09, value 0x307, index 0x01, timeout 10. -/
def colorPacket (c : Int × Int × Int) : Packet :=
  { requestType := TYPE_CLASS ||| RECIP_INTERFACE, request := 0x09,
    value := 0x307, index := 0x01, data := [7, c.1, c.2.1, c.2.2], timeout := 10 }

/-- Embeds the `color` setter (g19.py lines 130-136) together with the
outcome of the subsequent control transfer: the cache is assigned before
the transfer is attempted and is never rolled back, so the state component
is the same whether the transfer succeeds (devOk = true) or raises
(devOk = false). -/
def runSetColor (s : G19S) (c : Int × Int × Int) (devOk : Bool) :
    G19S × Except GErr Packet :=
  ({ s with color := c },
    if devOk then .ok (colorPacket c) else .error .TransferFailed)

/-- Embeds the `color` getter (g19.py lines 126-128): a pure cache read,
no hardware round-trip. -/
def G19S.getColor (s : G19S) : Int × Int × Int := s.color

/-- Embeds the `brightness` getter (g19.py lines 138-140). -/
def G19S.getBrightness (s : G19S) : Int := s.brightness

/-- The packet of the brightness setter (g19.py lines 146-149). -/
def brightnessPacket (b : Int) : Packet :=
  { requestType := TYPE_VENDOR ||| RECIP_INTERFACE, request := 0x0a,
    value := 0, index := 0,
    data := [b, 0xe2, 0x12, 0x00, 0x8c, 0x11, 0x00, 0x10, 0x00], timeout := 10 }

/-- Embeds the `brightness` setter (g19.py lines 142-149): `assert
0 <= brightness <= 100` (OutOfRange on failure, state untouched), then the
cache update and the vendor-request transfer. -/
def G19S.setBrightness (s : G19S) (b : Int) : G19S × Except GErr Packet :=
  if 0 ≤ b ∧ b ≤ 100 then ({ s with brightness := b }, .ok (brightnessPacket b))
  else (s, .error .OutOfRange)

/-- Embeds `G19.light` (g19.py lines 151-157): data = [5, 0], then
`data[1] |= key` for each argument; class request 0x09, value 0x305,
index 0x01, timeout 10.  No cached state is read or written. -/
def G19S.light (_ : G19S) (keys : List Nat) : Packet :=
  { requestType := TYPE_CLASS ||| RECIP_INTERFACE, request := 0x09,
    value := 0x305, index := 0x01,
    data := [5, Int.ofNat (keys.foldl (fun acc k => acc ||| k) 0)], timeout := 10 }

/-- Embeds `G19.show` as a method (g19.py lines 159-169): the cached session
state is neither read nor written by show. -/
def G19S.showBytes (_ : G19S) (data : List Nat) : Option (List Nat) := g19_show data

/-- C6: set_brightness fails with OutOfRange exactly when b is outside
[0,100]; for in-range b it sends the vendor-request packet with payload
[b, 0xe2, 0x12, 0x00, 0x8c, 0x11, 0x00, 0x10, 0x00] (request 0x0a) and the
cached brightness afterwards reads back as b. -/
theorem set_brightness_range (s : G19S) (b : Int) :
    ((s.setBrightness b).2 = .error .OutOfRange ↔ ¬(0 ≤ b ∧ b ≤ 100)) ∧
    (0 ≤ b → b ≤ 100 →
      (s.setBrightness b).2 = .ok
        { requestType := 0x40 ||| 0x01, request := 0x0a, value := 0, index := 0,
          data := [b, 0xe2, 0x12, 0x00, 0x8c, 0x11, 0x00, 0x10, 0x00],
          timeout := 10 } ∧
      (s.setBrightness b).1.getBrightness = b) := by
  constructor
  · constructor
    · intro h hin
      rw [G19S.setBrightness, if_pos hin] at h
      exact Except.noConfusion h
    · intro hout
      rw [G19S.setBrightness, if_neg hout]
  · intro h0 h1
    refine ⟨?_, ?_⟩
    · rw [G19S.setBrightness, if_pos ⟨h0, h1⟩]
      rfl
    · rw [G19S.setBrightness, if_pos ⟨h0, h1⟩]
      rfl

/-- C6 witness: 101 and -1 fail OutOfRange; 0 and 100 succeed and are read
back by the getter. -/
theorem set_brightness_range_witness :
    (initState.setBrightness 101).2 = .error .OutOfRange ∧
    (initState.setBrightness (-1)).2 = .error .OutOfRange ∧
    (initState.setBrightness 0).1.getBrightness = 0 ∧
    (initState.setBrightness 100).1.getBrightness = 100 :=
  ⟨(set_brightness_range initState 101).1.mpr (by omega),
   (set_brightness_range initState (-1)).1.mpr (by omega),
   ((set_brightness_range initState 0).2 (by omega) (by omega)).2,
   ((set_brightness_range initState 100).2 (by omega) (by omega)).2⟩

/-- C7: after set_color the cached color is the new triple whether the
transfer succeeds or fails, and get_color returns exactly the cached triple
(it is a pure projection of the state, with no transfer). -/
theorem set_color_caches (s : G19S) (c : Int × Int × Int) (devOk : Bool) :
    (runSetColor s c devOk).1.color = c ∧
    (runSetColor s c devOk).1.getColor = c ∧
    (∀ t : G19S, t.getColor = t.color) :=
  ⟨rfl, rfl, fun _ => rfl⟩

/-- C7 witness: instantiated at a failing transfer. -/
theorem set_color_caches_witness :
    (runSetColor initState (1, 2, 3) false).1.getColor = (1, 2, 3) :=
  (set_color_caches initState (1, 2, 3) false).2.1

/-- C9 (amended): the code installs no lifecycle guard, so a command issued
after stop() does not fail with InvalidState — it behaves exactly as before
stop(): same packet, same cache update, same error behavior. -/
theorem commands_after_stop (s : G19S) (c : Int × Int × Int) (devOk : Bool)
    (b : Int) (keys : List Nat) (data : List Nat) :
    runSetColor s.stop c devOk =
      ((runSetColor s c devOk).1.stop, (runSetColor s c devOk).2) ∧
    s.stop.setBrightness b = ((s.setBrightness b).1.stop, (s.setBrightness b).2) ∧
    s.stop.light keys = s.light keys ∧
    s.stop.showBytes data = s.showBytes data := by
  refine ⟨rfl, ?_, rfl, rfl⟩
  rw [G19S.setBrightness, G19S.setBrightness]
  by_cases h : 0 ≤ b ∧ b ≤ 100
  · rw [if_pos h, if_pos h]
    rfl
  · rw [if_neg h, if_neg h]

/-- C9 counterexample: set_color invoked after stop() on a fresh session
still succeeds, still issues its [7,1,2,3] transfer and still updates the
cache — it does not fail with InvalidState. -/
theorem commands_after_stop_counterexample :
    (runSetColor initState.stop (1, 2, 3) true).2 = .ok (colorPacket (1, 2, 3)) ∧
    (runSetColor initState.stop (1, 2, 3) true).2 ≠ .error .InvalidState ∧
    (runSetColor initState.stop (1, 2, 3) true).1.color = (1, 2, 3) :=
  ⟨rfl, fun h => Except.noConfusion h, rfl⟩

theorem foldl_or_testBit (keys : List Nat) (acc : Nat) (i : Nat) :
    (keys.foldl (fun a k => a ||| k) acc).testBit i =
      (acc.testBit i || keys.any (fun k => k.testBit i)) := by
  induction keys generalizing acc with
  | nil => simp
  | cons k rest ih =>
    rw [List.foldl_cons, ih, List.any_cons, Nat.testBit_or]
    cases acc.testBit i <;> cases k.testBit i <;> simp

/-- C10: light sends the payload [5, m] where m is the bitwise OR of all
the key-mask arguments (bit i of m is set iff some argument has bit i set),
and with zero arguments the payload is [5, 0]; the packet is class request
0x09 with value 0x305 and index 0x01. -/
theorem light_payload_or (s : G19S) (keys : List Nat) :
    ∃ m : Nat,
      (s.light keys).data = [5, Int.ofNat m] ∧
      (∀ i : Nat, m.testBit i = keys.any (fun k => k.testBit i)) ∧
      (s.light []).data = [5, 0] ∧
      (s.light keys).request = 0x09 ∧
      (s.light keys).value = 0x305 ∧
      (s.light keys).index = 0x01 := by
  refine ⟨keys.foldl (fun acc k => acc ||| k) 0, rfl, ?_, rfl, rfl, rfl, rfl⟩
  intro i
  rw [foldl_or_testBit]
  simp

end Gnited
